import Mathlib

/-
Verification development for the go-uml-generator repository.

The repository ships two variants of the same program in one source tree:
variant A (a directory watcher, `FileWatcher.Watch` over a directory) and
variant B (a single-file watcher).  Both share the data model
(`StructInfo`, `InterfaceInfo`, `FieldInfo`, `MethodInfo`, `ParameterInfo`,
`Relation`) and the extractor (`processTypeSpec`, `processMethod`), and
differ in `identifyRelations` and `GeneratePlantUML`.

Go maps are modelled as association lists: the list order stands for one
admissible iteration order of the Go map (Go leaves it unspecified), lookup
is by key, and insertion replaces an existing entry with the same key or
appends a fresh one.  The Go parser is an external collaborator: a source
unit is modelled as a path together with either its parsed declaration list
or a parse failure (`none`).
-/

set_option maxHeartbeats 1000000

/-- Go struct `FieldInfo { Name, Type string }`. -/
structure FieldInfo where
  name : String
  type : String
deriving DecidableEq

/-- Go struct `ParameterInfo { Name, Type string }`. -/
structure ParameterInfo where
  name : String
  type : String
deriving DecidableEq

/-- Go struct `MethodInfo { Name string; Parameters []ParameterInfo; ReturnType string }`. -/
structure MethodInfo where
  name : String
  parameters : List ParameterInfo
  returnType : String
deriving DecidableEq

/-- Go struct `StructInfo { Name string; Fields []FieldInfo; Methods []MethodInfo }`. -/
structure StructInfo where
  name : String
  fields : List FieldInfo
  methods : List MethodInfo
deriving DecidableEq

/-- Go struct `InterfaceInfo { Name string; Methods []MethodInfo }`. -/
structure InterfaceInfo where
  name : String
  methods : List MethodInfo
deriving DecidableEq

/-- Go struct `Relation { From, To, Type, Cardinality string }`.
The Go field `Type` is rendered `RType` here because `Type` is reserved in Lean. -/
structure Relation where
  From : String
  To : String
  RType : String
  Cardinality : String
deriving DecidableEq

/-- Go struct `UMLGenerator { structs map[string]*StructInfo; interfaces map[string]*InterfaceInfo; relations []Relation }`.
The two maps are association lists (see the header comment). -/
structure UMLGenerator where
  structs : List StructInfo
  interfaces : List InterfaceInfo
  relations : List Relation
deriving DecidableEq

/-- `NewUMLGenerator`: fresh empty maps and an empty relation slice. -/
def NewUMLGenerator : UMLGenerator := ⟨[], [], []⟩

/-- `(*UMLGenerator).Reset`: replaces both maps and the relation slice by
fresh empty ones, discarding the previous contents wholesale. -/
def UMLGenerator.Reset (_ : UMLGenerator) : UMLGenerator := ⟨[], [], []⟩

/-- Go map read `g.structs[n]`. -/
def lookupStruct (g : UMLGenerator) (n : String) : Option StructInfo :=
  g.structs.find? (fun s => s.name == n)

/-- Go map read `g.interfaces[n]`. -/
def lookupIface (g : UMLGenerator) (n : String) : Option InterfaceInfo :=
  g.interfaces.find? (fun i => i.name == n)

/-- Go map write `m[info.Name] = info` on the struct map: replace the entry
with the same key if present, otherwise add the entry. -/
def setStruct : List StructInfo → StructInfo → List StructInfo
  | [], info => [info]
  | s :: rest, info =>
    if s.name == info.name then info :: rest else s :: setStruct rest info

/-- Go map write `m[info.Name] = info` on the interface map. -/
def setIface : List InterfaceInfo → InterfaceInfo → List InterfaceInfo
  | [], info => [info]
  | i :: rest, info =>
    if i.name == info.name then info :: rest else i :: setIface rest info

/-- `processMethod`'s final step: `if structInfo, ok := g.structs[typeName]; ok
{ structInfo.Methods = append(structInfo.Methods, methodInfo) }` — append the
method to the registered owner, silently drop it otherwise. -/
def addMethod : List StructInfo → String → MethodInfo → List StructInfo
  | [], _, _ => []
  | s :: rest, n, m =>
    if s.name == n then { s with methods := s.methods ++ [m] } :: rest
    else s :: addMethod rest n m

/-- One field group of a struct declaration as the Go AST presents it:
a (possibly empty) name list sharing one type expression, the latter already
normalized to a string by `getTypeString`. -/
structure RawField where
  names : List String
  ftype : String
deriving DecidableEq

/-- One named method signature as the Go AST presents it: parameters are
field groups, results a list of normalized type strings. -/
structure RawMethod where
  name : String
  params : List RawField
  results : List String
deriving DecidableEq

/-- A top-level declaration as `ParseGoFile` dispatches on it:
a struct type spec, an interface type spec (embedded interface entries,
which `processTypeSpec` skips because they carry no name, are omitted),
a func decl with a receiver (the receiver's base name already resolved from
the star/ident switch of `processMethod`), or anything else, which the
walk ignores. -/
inductive RawDecl where
  | typeStruct (name : String) (fields : List RawField)
  | typeIface (name : String) (methods : List RawMethod)
  | funcMethod (recv : String) (method : RawMethod)
  | otherDecl
deriving DecidableEq

/-- The struct name a declaration registers, if any. -/
def RawDecl.structName? : RawDecl → Option String
  | .typeStruct n _ => some n
  | _ => none

/-- The interface name a declaration registers, if any. -/
def RawDecl.ifaceName? : RawDecl → Option String
  | .typeIface n _ => some n
  | _ => none

/-- A watched source unit: its path plus the external parser's output,
`none` when the unit is malformed. -/
structure SourceUnit where
  path : String
  decls : Option (List RawDecl)
deriving DecidableEq

/-- The field-extraction loop of `processTypeSpec`: a field group with names
yields one `FieldInfo` per name; an anonymous (embedded) field is recorded
with `Name == Type`. -/
def fieldsOf (raws : List RawField) : List FieldInfo :=
  raws.flatMap (fun rf =>
    if rf.names.isEmpty then [⟨rf.ftype, rf.ftype⟩]
    else rf.names.map (fun n => ⟨n, rf.ftype⟩))

/-- The parameter loop shared by `processTypeSpec` (interface case) and
`processMethod`: named groups yield one parameter per name, an unnamed
group yields a single parameter with empty name. -/
def paramsOf (raws : List RawField) : List ParameterInfo :=
  raws.flatMap (fun rf =>
    if rf.names.isEmpty then [⟨"", rf.ftype⟩]
    else rf.names.map (fun n => ⟨n, rf.ftype⟩))

/-- Building a `MethodInfo`: parameters via the parameter loop, the return
type the comma-joined result list (`strings.Join(returnTypes, ", ")`,
empty when there are no results). -/
def buildMethod (rm : RawMethod) : MethodInfo :=
  ⟨rm.name, paramsOf rm.params, String.intercalate ", " rm.results⟩

/-- One iteration of the declaration walk in `ParseGoFile`:
`processTypeSpec` for type specs, `processMethod` for receiver funcs. -/
def processDecl (g : UMLGenerator) : RawDecl → UMLGenerator
  | .typeStruct n fs =>
    { g with structs := setStruct g.structs ⟨n, fieldsOf fs, []⟩ }
  | .typeIface n ms =>
    { g with interfaces := setIface g.interfaces ⟨n, ms.map buildMethod⟩ }
  | .funcMethod r m =>
    { g with structs := addMethod g.structs r (buildMethod m) }
  | .otherDecl => g

/-- The whole declaration walk of `ParseGoFile`, in file order. -/
def processDecls (g : UMLGenerator) (ds : List RawDecl) : UMLGenerator :=
  ds.foldl processDecl g

/-- The inner check of the structural-satisfaction stage: every interface
method name occurs among the struct's method names (names only, signatures
are never compared). -/
def implementsAll (s : StructInfo) (i : InterfaceInfo) : Bool :=
  i.methods.all (fun im => s.methods.any (fun sm => sm.name == im.name))

/-- The structural-satisfaction stage of `identifyRelations`, identical in
both variants: for every (struct, interface) pair, emit an `implements`
relation when the struct has all the interface's method names and the
interface declares at least one method. -/
def satisfactionRels (g : UMLGenerator) : List Relation :=
  g.structs.flatMap (fun s =>
    g.interfaces.flatMap (fun i =>
      if implementsAll s i && !i.methods.isEmpty then
        [⟨s.name, i.name, "implements", ""⟩]
      else []))

/-- `strings.HasPrefix`, expressed over the character lists so that the
kernel can evaluate it. -/
def hasLead (p s : String) : Bool :=
  p.data.isPrefixOf s.data

/-- `strings.TrimPrefix`, expressed over the character lists. -/
def stripLead (p s : String) : String :=
  if hasLead p s then ⟨s.data.drop p.data.length⟩ else s

/-- The parse-error text of `ParseGoFile`
(`fmt.Errorf("Fehler beim Parsen der Datei %s: %v", filePath, err)`);
the wrapped parser message is the external parser's and not modelled. -/
def parseErrMsg (p : String) : String :=
  "Fehler beim Parsen der Datei " ++ p

namespace VariantA

/-- Kind selection of variant A's member stage: `extends` when the field name
equals the field type (embedding), else `composition` when the raw reference
starts with `*`, else `aggregation`. -/
def relKind (f : FieldInfo) : String :=
  if f.name == f.type then "extends"
  else if hasLead "*" f.type then "composition"
  else "aggregation"

/-- The member-based stage of variant A's `identifyRelations`: per struct and
field, a relation with cardinality "1" when the raw field type is a key of the
struct map (the `To` endpoint trimmed of a leading `*`), then an `implements`
relation when the raw field type is a key of the interface map. -/
def memberRels (g : UMLGenerator) : List Relation :=
  g.structs.flatMap (fun s =>
    s.fields.flatMap (fun f =>
      (if (lookupStruct g f.type).isSome then
        [⟨s.name, stripLead "*" f.type, relKind f, "1"⟩]
      else [])
      ++
      (if (lookupIface g f.type).isSome then
        [⟨s.name, f.type, "implements", ""⟩]
      else [])))

/-- The relations one call of variant A's `identifyRelations` appends. -/
def newRels (g : UMLGenerator) : List Relation :=
  memberRels g ++ satisfactionRels g

/-- Variant A's `identifyRelations`: appends the member-stage and then the
satisfaction-stage relations to the accumulated relation slice. -/
def identifyRelations (g : UMLGenerator) : UMLGenerator :=
  { g with relations := g.relations ++ newRels g }

/-- `ParseGoFile` on an already-parsed declaration list: walk the
declarations, then run `identifyRelations`. -/
def parseFileOk (g : UMLGenerator) (ds : List RawDecl) : UMLGenerator :=
  identifyRelations (processDecls g ds)

/-- `ParseGoFile`: a malformed unit yields the descriptive parse error,
otherwise the declaration walk followed by `identifyRelations`. -/
def ParseGoFile (g : UMLGenerator) (u : SourceUnit) : Except String UMLGenerator :=
  match u.decls with
  | none => .error (parseErrMsg u.path)
  | some ds => .ok (parseFileOk g ds)

/-- The parse loop of `GenerateUMLFromDirectory`: each unit in order,
returning the first parse error. -/
def runUnits (g : UMLGenerator) : List SourceUnit → Except String UMLGenerator
  | [] => .ok g
  | u :: us =>
    match ParseGoFile g u with
    | .error e => .error e
    | .ok g' => runUnits g' us

/-- `GenerateUMLFromDirectory`: `Reset`, then parse every discovered unit,
aborting on the first failure. -/
def GenerateUMLFromDirectory (g : UMLGenerator) (units : List SourceUnit) :
    Except String UMLGenerator :=
  runUnits g.Reset units

/-- A whole pass over parse-clean units, starting from the fresh generator
`Watch` allocates each tick. -/
def runPassOk (dss : List (List RawDecl)) : UMLGenerator :=
  dss.foldl parseFileOk NewUMLGenerator

end VariantA

namespace VariantB

/-- The member-based stage of variant B's `identifyRelations`: when the raw
field type is a key of the struct map, a relation with cardinality "1" whose
kind is `composition` for an embedded field and `aggregation` otherwise; then,
when the field type starts with `[]` and the trimmed base names a registered
struct, an `aggregation` relation with cardinality "*". -/
def memberRels (g : UMLGenerator) : List Relation :=
  g.structs.flatMap (fun s =>
    s.fields.flatMap (fun f =>
      (if (lookupStruct g f.type).isSome then
        [⟨s.name, f.type, (if f.name == f.type then "composition" else "aggregation"), "1"⟩]
      else [])
      ++
      (if hasLead "[]" f.type then
        (if (lookupStruct g (stripLead "[]" f.type)).isSome then
          [⟨s.name, stripLead "[]" f.type, "aggregation", "*"⟩]
        else [])
      else [])))

/-- The relations one call of variant B's `identifyRelations` appends. -/
def newRels (g : UMLGenerator) : List Relation :=
  memberRels g ++ satisfactionRels g

/-- Variant B's `identifyRelations`. -/
def identifyRelations (g : UMLGenerator) : UMLGenerator :=
  { g with relations := g.relations ++ newRels g }

/-- Variant B's `ParseGoFile` on an already-parsed declaration list. -/
def parseFileOk (g : UMLGenerator) (ds : List RawDecl) : UMLGenerator :=
  identifyRelations (processDecls g ds)

/-- A whole variant-B pass over parse-clean units from a fresh generator. -/
def runPassOk (dss : List (List RawDecl)) : UMLGenerator :=
  dss.foldl parseFileOk NewUMLGenerator

end VariantB

/-- The parameter rendering shared by both variants:
`name: type` for a named parameter, bare `type` otherwise. -/
def paramStr (p : ParameterInfo) : String :=
  if p.name != "" then p.name ++ ": " ++ p.type else p.type

namespace VariantA

/-- The field loop of variant A's `GeneratePlantUML` class block: anonymous
(embedded) fields, recognized by `Name == Type`, are not shown; every other
field becomes one `    +name: type` line. -/
def fieldLines (fs : List FieldInfo) : List String :=
  fs.flatMap (fun f =>
    if f.name != f.type then ["    +" ++ f.name ++ ": " ++ f.type ++ "\n"]
    else [])

/-- One method line of variant A's renderer: the return-type suffix is
omitted when the method has no return type. -/
def methodLine (m : MethodInfo) : String :=
  let ps := String.intercalate ", " (m.parameters.map paramStr)
  if m.returnType != "" then
    "    +" ++ m.name ++ "(" ++ ps ++ "): " ++ m.returnType ++ "\n"
  else
    "    +" ++ m.name ++ "(" ++ ps ++ ")\n"

/-- One `class` block of variant A's renderer. -/
def classBlock (s : StructInfo) : String :=
  "class " ++ s.name ++ " \x7b\n"
    ++ String.join (fieldLines s.fields)
    ++ String.join (s.methods.map methodLine)
    ++ "\x7d\n\n"

/-- One `interface` block of variant A's renderer. -/
def ifaceBlock (i : InterfaceInfo) : String :=
  "interface " ++ i.name ++ " \x7b\n"
    ++ String.join (i.methods.map methodLine)
    ++ "\x7d\n\n"

/-- One relation line of variant A's renderer; a kind outside the fixed
symbol table contributes nothing. -/
def relLine (r : Relation) : String :=
  if r.RType == "extends" then r.To ++ " <|-- " ++ r.From ++ "\n"
  else if r.RType == "implements" then r.To ++ " <|.. " ++ r.From ++ "\n"
  else if r.RType == "aggregation" then r.From ++ " o-- " ++ r.To ++ "\n"
  else if r.RType == "composition" then r.From ++ " *-- " ++ r.To ++ "\n"
  else ""

/-- Variant A's `GeneratePlantUML`: header, class blocks in struct-map
iteration order, interface blocks, relation lines, footer. -/
def GeneratePlantUML (g : UMLGenerator) : String :=
  "@startuml\n\n"
    ++ String.join (g.structs.map classBlock)
    ++ String.join (g.interfaces.map ifaceBlock)
    ++ String.join (g.relations.map relLine)
    ++ "\n@enduml"

/-- One tick of variant A's `Watch` loop after a detected change: a fresh
generator, `GenerateUMLFromDirectory`, and on success the rendered notation
text handed to `GenerateUMLDiagram`; on failure the error is reported and
nothing is rendered (`continue`). -/
def watchTick (units : List SourceUnit) : Option String :=
  match GenerateUMLFromDirectory NewUMLGenerator units with
  | .error _ => none
  | .ok g => some (GeneratePlantUML g)

/-- The polling loop inside variant A's `Watch`, over a stream of per-tick
unit sets: every in-loop tick is processed — an in-loop failure is reported
and `continue`d past.  The initial forced run that precedes this loop is
modelled by `Watch` below. -/
def watchRun (ticks : List (List SourceUnit)) : List (Option String) :=
  ticks.map watchTick

/-- Variant A's whole `Watch`: the initial forced pass on a fresh generator,
then the polling loop.  When the initial pass fails — its parse error
included — `Watch` prints the error and RETURNS, so the loop never runs and
no tick is ever processed; only on initial success does the loop start. -/
def Watch (initial : List SourceUnit) (ticks : List (List SourceUnit)) :
    List (Option String) :=
  match GenerateUMLFromDirectory NewUMLGenerator initial with
  | .error _ => []
  | .ok g => some (GeneratePlantUML g) :: watchRun ticks

end VariantA

namespace VariantB

/-- The field loop of variant B's `GeneratePlantUML` class block: embedded
fields are skipped via `continue`; others give `  +name: type` lines. -/
def fieldLines (fs : List FieldInfo) : List String :=
  fs.flatMap (fun f =>
    if f.name == f.type then []
    else ["  +" ++ f.name ++ ": " ++ f.type ++ "\n"])

/-- One method line of variant B's renderer. -/
def methodLine (m : MethodInfo) : String :=
  let ps := String.intercalate ", " (m.parameters.map paramStr)
  let ret := if m.returnType != "" then ": " ++ m.returnType else ""
  "  +" ++ m.name ++ "(" ++ ps ++ ")" ++ ret ++ "\n"

/-- One `class` block of variant B's renderer. -/
def classBlock (s : StructInfo) : String :=
  "class " ++ s.name ++ " \x7b\n"
    ++ String.join (fieldLines s.fields)
    ++ String.join (s.methods.map methodLine)
    ++ "\x7d\n\n"

/-- One `interface` block of variant B's renderer. -/
def ifaceBlock (i : InterfaceInfo) : String :=
  "interface " ++ i.name ++ " \x7b\n"
    ++ String.join (i.methods.map methodLine)
    ++ "\x7d\n\n"

/-- One relation line of variant B's renderer: composition, aggregation
(the cardinality label quoted into the line when it is `*`), implements with
the `..|>` arrow; any other kind — `extends` included, which this variant's
inferencer never produces — contributes nothing. -/
def relLine (r : Relation) : String :=
  if r.RType == "composition" then r.From ++ " *-- " ++ r.To ++ "\n"
  else if r.RType == "aggregation" then
    (if r.Cardinality == "*" then
      r.From ++ " o-- \"" ++ r.Cardinality ++ "\" " ++ r.To ++ "\n"
    else r.From ++ " o-- " ++ r.To ++ "\n")
  else if r.RType == "implements" then r.From ++ " ..|> " ++ r.To ++ "\n"
  else ""

/-- Variant B's `GeneratePlantUML`. -/
def GeneratePlantUML (g : UMLGenerator) : String :=
  "@startuml\n\n"
    ++ String.join (g.structs.map classBlock)
    ++ String.join (g.interfaces.map ifaceBlock)
    ++ String.join (g.relations.map relLine)
    ++ "\n@enduml"

/-- Variant B's `ParseGoFile`, identical to variant A's up to the variant's
own `identifyRelations`. -/
def ParseGoFile (g : UMLGenerator) (u : SourceUnit) : Except String UMLGenerator :=
  match u.decls with
  | none => .error (parseErrMsg u.path)
  | some ds => .ok (parseFileOk g ds)

/-- One run of variant B's `generateUMLDiagram` over the single watched file:
a fresh generator, `ParseGoFile`, and on success the rendered notation text;
on failure the error is returned and reported by the caller, which continues. -/
def generateTick (u : SourceUnit) : Option String :=
  match ParseGoFile NewUMLGenerator u with
  | .error _ => none
  | .ok g => some (GeneratePlantUML g)

/-- Variant B's whole `Watch`: the initial run — whose failure is only
printed, NOT returned from — followed by the ticker loop over the watched
file's successive states; every tick is processed whatever happened before. -/
def Watch (initial : SourceUnit) (ticks : List SourceUnit) : List (Option String) :=
  generateTick initial :: ticks.map generateTick

end VariantB

/-- The lines of a rendered text, as character lists. -/
def linesOf (s : String) : List (List Char) := s.data.splitOn '\n'

/-- Whether a rendered text contains the given full line. -/
def containsLine (text line : String) : Bool := (linesOf text).contains line.data

/-- A registry with two empty structs `A`, `B` in one iteration order. -/
def c2g1 : UMLGenerator := ⟨[⟨"A", [], []⟩, ⟨"B", [], []⟩], [], []⟩

/-- The same registry contents as `c2g1` in the other iteration order. -/
def c2g2 : UMLGenerator := ⟨[⟨"B", [], []⟩, ⟨"A", [], []⟩], [], []⟩

/-- A variant A pass over a zero-method interface `I` and a struct `S` with a
field of type `I`. -/
def c3g : UMLGenerator :=
  VariantA.runPassOk [[RawDecl.typeIface "I" [], RawDecl.typeStruct "S" [⟨["f"], "I"⟩]]]

/-- A variant A pass over interface `I` with method `M` and a methodless
struct `S` holding a field of type `I`. -/
def c5g : UMLGenerator :=
  VariantA.runPassOk
    [[RawDecl.typeIface "I" [⟨"M", [], []⟩], RawDecl.typeStruct "S" [⟨["f"], "I"⟩]]]

/-- The Shape/Circle/Square scenario of the spec, as one variant A pass. -/
def c5shapes : UMLGenerator :=
  VariantA.runPassOk
    [[RawDecl.typeIface "Shape" [⟨"Area", [], ["float64"]⟩],
      RawDecl.typeStruct "Circle" [],
      RawDecl.typeStruct "Square" [],
      RawDecl.funcMethod "Circle" ⟨"Area", [], ["float64"]⟩]]

/-- A variant B pass over `Wheel` and `Car` with a `[]Wheel` field. -/
def c6g : UMLGenerator :=
  VariantB.runPassOk
    [[RawDecl.typeStruct "Wheel" [], RawDecl.typeStruct "Car" [⟨["ws"], "[]Wheel"⟩]]]

/-- The aggregation relation the C10 scenario counts. -/
def c10rel : Relation := ⟨"Car", "Engine", "aggregation", "1"⟩

/-- The first unit of the C10 scenario: `Engine` and `Car{e Engine}`. -/
def c10unit1 : List RawDecl :=
  [RawDecl.typeStruct "Engine" [], RawDecl.typeStruct "Car" [⟨["e"], "Engine"⟩]]

/-- The C1 scenario: `type Engine struct{}` and `type Car struct { Engine *Engine }`
in one source unit. -/
def c1units : List (List RawDecl) :=
  [[RawDecl.typeStruct "Engine" [],
    RawDecl.typeStruct "Car" [⟨["Engine"], "*Engine"⟩]]]

/-- A concrete registry for the C3 witness: one-method interface `Shape`,
struct `Circle` carrying a method of the same name. -/
def c3wg : UMLGenerator :=
  ⟨[⟨"Circle", [], [⟨"Area", [], "float64"⟩]⟩],
   [⟨"Shape", [⟨"Area", [], "float64"⟩]⟩], []⟩

/-- A second concrete registry for the C3 witness: struct `Car` holding a
slice of registered struct `Wheel`. -/
def c3wg2 : UMLGenerator :=
  ⟨[⟨"Wheel", [], []⟩, ⟨"Car", [⟨"ws", "[]Wheel"⟩], []⟩], [], []⟩

/-- The C4 counterexample registry: variant B's pass over `type B struct{}`
and `type A struct { B }` (an embedded field, `Name == Type == "B"`). -/
def c4g : UMLGenerator :=
  VariantB.runPassOk [[RawDecl.typeStruct "B" [], RawDecl.typeStruct "A" [⟨[], "B"⟩]]]

/-- The registry of a variant A pass over `B`, and `A` with embedded `B` plus
one ordinary field. -/
def c4ga : UMLGenerator :=
  VariantA.runPassOk
    [[RawDecl.typeStruct "B" [],
      RawDecl.typeStruct "A" [⟨[], "B"⟩, ⟨["x"], "int"⟩]]]

/-- The concrete registry the C4 witness instantiates at. -/
def c4wreg : UMLGenerator :=
  ⟨[⟨"B", [], []⟩, ⟨"A", [⟨"B", "B"⟩], []⟩], [], []⟩

/-- The concrete registry the C5 witness instantiates at. -/
def c5wg : UMLGenerator :=
  ⟨[⟨"Circle", [], [⟨"Area", [], "float64"⟩]⟩, ⟨"Square", [], []⟩],
   [⟨"Shape", [⟨"Area", [], "float64"⟩]⟩], []⟩

/-- The concrete registry the C6 witness instantiates at. -/
def c6wreg : UMLGenerator :=
  ⟨[⟨"Wheel", [], []⟩, ⟨"Car", [⟨"ws", "[]Wheel"⟩], []⟩], [], []⟩

/-- The concrete tick the C7 witness instantiates at. -/
def c7wunits : List SourceUnit :=
  [⟨"a.go", some [RawDecl.typeStruct "Engine" []]⟩,
   ⟨"b.go", some [RawDecl.typeIface "Shape" [⟨"Area", [], ["float64"]⟩]]⟩]

/-- The C9 counterexample registry: one source unit declares both
`type B struct{}` and `type B interface { M() }`, which `go/parser` accepts
(duplicate top-level names are a type-check error, not a parse error). -/
def c9g : UMLGenerator :=
  processDecls NewUMLGenerator
    [RawDecl.typeStruct "B" [], RawDecl.typeIface "B" [⟨"M", [], []⟩]]

/-- The concrete registry the C9 witness instantiates at. -/
def c9wreg : UMLGenerator :=
  ⟨[⟨"Engine", [], []⟩, ⟨"Car", [⟨"e", "Engine"⟩], []⟩], [], []⟩

/-- The per-struct slice of variant A's member stage, named so that counting
arguments can sum over the struct map. -/
def innerA (g : UMLGenerator) (s : StructInfo) : List Relation :=
  s.fields.flatMap (fun f =>
    (if (lookupStruct g f.type).isSome then
      [⟨s.name, stripLead "*" f.type, VariantA.relKind f, "1"⟩]
    else [])
    ++
    (if (lookupIface g f.type).isSome then
      [⟨s.name, f.type, "implements", ""⟩]
    else []))

/-- The C10 invariant carried across a pass: exactly one struct named `Car`,
every `Car` entry has exactly the single field `e : Engine`, and a struct
named `Engine` is registered. -/
def c10Inv (g : UMLGenerator) : Prop :=
  g.structs.countP (fun s => s.name == "Car") = 1 ∧
  (∀ s ∈ g.structs, s.name = "Car" → s.fields = [⟨"e", "Engine"⟩]) ∧
  g.structs.any (fun s => s.name == "Engine") = true

/-- A declaration is benign for the C10 scenario when it does not redeclare
the struct `Car` or `Engine`. -/
def c10Benign (d : RawDecl) : Bool :=
  match d with
  | .typeStruct n _ => !(n == "Car") && !(n == "Engine")
  | _ => true

/-! Generic helper lemmas about the association-list map operations. -/

theorem mem_if_single {α : Type} {c : Bool} {a b : α} :
    (a ∈ if c then [b] else []) ↔ c = true ∧ a = b := by
  cases c <;> simp

theorem count_flatMap_eq_sum {α β : Type} [BEq α] (a : α) (l : List β) (f : β → List α) :
    ((l.flatMap f).count a) = (l.map (fun x => (f x).count a)).sum := by
  induction l with
  | nil => rfl
  | cons x t ih => simp [List.flatMap_cons, List.count_append, ih]

theorem mem_setStruct {l : List StructInfo} {info s : StructInfo}
    (h : s ∈ setStruct l info) : s = info ∨ s ∈ l := by
  induction l with
  | nil => simp [setStruct] at h; exact Or.inl h
  | cons x t ih =>
    rw [setStruct] at h
    split at h
    · rcases List.mem_cons.mp h with h | h
      · exact Or.inl h
      · exact Or.inr (List.mem_cons_of_mem _ h)
    · rcases List.mem_cons.mp h with h | h
      · exact Or.inr (h ▸ List.mem_cons_self _ _)
      · rcases ih h with h | h
        · exact Or.inl h
        · exact Or.inr (List.mem_cons_of_mem _ h)

theorem mem_setStruct_of_ne {l : List StructInfo} {info s : StructInfo}
    (hs : s ∈ l) (hne : s.name ≠ info.name) : s ∈ setStruct l info := by
  induction l with
  | nil => cases hs
  | cons x t ih =>
    rw [setStruct]
    split
    · rcases List.mem_cons.mp hs with h | h
      · exact absurd (by simpa using congrArg StructInfo.name h ▸ (by assumption : (x.name == info.name) = true)) (by simp_all)
      · exact List.mem_cons_of_mem _ h
    · rcases List.mem_cons.mp hs with h | h
      · exact h ▸ List.mem_cons_self _ _
      · exact List.mem_cons_of_mem _ (ih h)

theorem mem_setIface {l : List InterfaceInfo} {info i : InterfaceInfo}
    (h : i ∈ setIface l info) : i = info ∨ i ∈ l := by
  induction l with
  | nil => simp [setIface] at h; exact Or.inl h
  | cons x t ih =>
    rw [setIface] at h
    split at h
    · rcases List.mem_cons.mp h with h | h
      · exact Or.inl h
      · exact Or.inr (List.mem_cons_of_mem _ h)
    · rcases List.mem_cons.mp h with h | h
      · exact Or.inr (h ▸ List.mem_cons_self _ _)
      · rcases ih h with h | h
        · exact Or.inl h
        · exact Or.inr (List.mem_cons_of_mem _ h)

theorem map_name_addMethod (l : List StructInfo) (n : String) (m : MethodInfo) :
    (addMethod l n m).map (fun s => s.name) = l.map (fun s => s.name) := by
  induction l with
  | nil => rfl
  | cons x t ih =>
    rw [addMethod]
    split
    · simp
    · simp [ih]

theorem mem_addMethod {l : List StructInfo} {n : String} {m : MethodInfo} {s : StructInfo}
    (h : s ∈ addMethod l n m) : ∃ x ∈ l, s.name = x.name ∧ s.fields = x.fields := by
  induction l with
  | nil => cases h
  | cons x t ih =>
    rw [addMethod] at h
    split at h
    · rcases List.mem_cons.mp h with h | h
      · exact ⟨x, List.mem_cons_self _ _, by simp [h]⟩
      · exact ⟨s, List.mem_cons_of_mem _ h, rfl, rfl⟩
    · rcases List.mem_cons.mp h with h | h
      · exact ⟨x, List.mem_cons_self _ _, by simp [h]⟩
      · rcases ih h with ⟨y, hy, hn, hf⟩
        exact ⟨y, List.mem_cons_of_mem _ hy, hn, hf⟩

theorem stripLead_of_not_lead {p s : String} (h : hasLead p s = false) :
    stripLead p s = s := by
  rw [stripLead, h]
  rfl

/-- Membership characterization of variant A's member-based stage. -/
theorem mem_memberRelsA {g : UMLGenerator} {r : Relation} :
    r ∈ VariantA.memberRels g ↔
      ∃ s, s ∈ g.structs ∧ ∃ f, f ∈ s.fields ∧
        (((lookupStruct g f.type).isSome = true ∧
            r = ⟨s.name, stripLead "*" f.type, VariantA.relKind f, "1"⟩) ∨
         ((lookupIface g f.type).isSome = true ∧
            r = ⟨s.name, f.type, "implements", ""⟩)) := by
  simp only [VariantA.memberRels, List.mem_flatMap, List.mem_append, mem_if_single]

/-- Membership characterization of variant B's member-based stage. -/
theorem mem_memberRelsB {g : UMLGenerator} {r : Relation} :
    r ∈ VariantB.memberRels g ↔
      ∃ s, s ∈ g.structs ∧ ∃ f, f ∈ s.fields ∧
        (((lookupStruct g f.type).isSome = true ∧
            r = ⟨s.name, f.type, (if f.name == f.type then "composition" else "aggregation"), "1"⟩) ∨
         (hasLead "[]" f.type = true ∧
            (lookupStruct g (stripLead "[]" f.type)).isSome = true ∧
            r = ⟨s.name, stripLead "[]" f.type, "aggregation", "*"⟩)) := by
  simp only [VariantB.memberRels, List.mem_flatMap, List.mem_append]
  constructor
  · rintro ⟨s, hs, f, hf, h | h⟩
    · rw [mem_if_single] at h
      exact ⟨s, hs, f, hf, Or.inl h⟩
    · refine ⟨s, hs, f, hf, Or.inr ?_⟩
      by_cases hsl : hasLead "[]" f.type = true
      · rw [if_pos hsl, mem_if_single] at h
        exact ⟨hsl, h.1, h.2⟩
      · rw [if_neg hsl] at h
        cases h
  · rintro ⟨s, hs, f, hf, h | ⟨h1, h2, h3⟩⟩
    · exact ⟨s, hs, f, hf, Or.inl (mem_if_single.mpr h)⟩
    · exact ⟨s, hs, f, hf, Or.inr (by rw [if_pos h1, mem_if_single]; exact ⟨h2, h3⟩)⟩

/-- Membership characterization of the shared structural-satisfaction stage. -/
theorem mem_satisfactionRels {g : UMLGenerator} {r : Relation} :
    r ∈ satisfactionRels g ↔
      ∃ s, s ∈ g.structs ∧ ∃ i, i ∈ g.interfaces ∧
        implementsAll s i = true ∧ i.methods ≠ [] ∧
        r = ⟨s.name, i.name, "implements", ""⟩ := by
  simp only [satisfactionRels, List.mem_flatMap]
  constructor
  · rintro ⟨s, hs, i, hi, hr⟩
    rw [mem_if_single, Bool.and_eq_true] at hr
    obtain ⟨⟨ha, hb⟩, hr⟩ := hr
    rw [Bool.not_eq_true', List.isEmpty_eq_false] at hb
    exact ⟨s, hs, i, hi, ha, hb, hr⟩
  · rintro ⟨s, hs, i, hi, ha, hb, hr⟩
    refine ⟨s, hs, i, hi, ?_⟩
    rw [mem_if_single, Bool.and_eq_true, Bool.not_eq_true', List.isEmpty_eq_false]
    exact ⟨⟨ha, hb⟩, hr⟩

/-- C1: the spec says a field whose reference names a registered record after
stripping one indirection marker yields a relation (composition for `*Engine`),
and that `Car *-- Engine` is rendered for the Engine/Car example.  The code
instead looks the RAW reference up in the struct map, so a pointer field never
matches: the example pass emits no relation at all (in either variant), no
`Car *-- Engine` line is rendered, and variant A's `composition` branch is
unreachable whenever no registered struct name starts with `*` — which the
code's own `TrimPrefix` on the `To` endpoint shows was not the intent. -/
theorem claimC1_pointer_lookup_never_strips :
    (VariantA.runPassOk c1units).relations = [] ∧
    containsLine (VariantA.GeneratePlantUML (VariantA.runPassOk c1units)) "Car *-- Engine" = false ∧
    (VariantB.runPassOk c1units).relations = [] ∧
    (∀ g : UMLGenerator, g.structs.all (fun s => !(hasLead "*" s.name)) = true →
      (VariantA.memberRels g).all (fun r => r.RType != "composition") = true) := by
  refine ⟨by decide, by decide, by decide, ?_⟩
  intro g hg
  rw [List.all_eq_true]
  intro r hr
  rw [mem_memberRelsA] at hr
  obtain ⟨s, hs, f, hf, ⟨hl, hr⟩ | ⟨hl, hr⟩⟩ := hr
  · subst hr
    show (VariantA.relKind f != "composition") = true
    rw [lookupStruct, List.find?_isSome] at hl
    obtain ⟨x, hx, hxe⟩ := hl
    rw [List.all_eq_true] at hg
    have hstar := hg x hx
    rw [Bool.not_eq_true'] at hstar
    rw [beq_iff_eq] at hxe
    rw [hxe] at hstar
    rw [VariantA.relKind]
    by_cases h1 : (f.name == f.type) = true
    · rw [if_pos h1]
      decide
    · rw [if_neg h1]
      simp only [hstar]
      decide
  · subst hr
    rfl

/-- C1 witness: in the Engine/Car registry no struct name starts with `*`,
and indeed no member relation of kind `composition` exists. -/
theorem claimC1_witness :
    ((VariantA.runPassOk c1units).structs.all (fun s => !(hasLead "*" s.name)) = true) ∧
    (VariantA.memberRels (VariantA.runPassOk c1units)).all
      (fun r => r.RType != "composition") = true :=
  ⟨by decide, claimC1_pointer_lookup_never_strips.2.2.2 _ (by decide)⟩

/-- C2 counterexample: two registries that are identical as maps — the struct
entry lists are permutations of each other with equal interface and relation
lists — render to different bytes, because the renderer iterates the struct
map directly and the iteration order leaks into the text. -/
theorem claimC2_cex :
    c2g1.structs.Perm c2g2.structs ∧
    c2g1.interfaces = c2g2.interfaces ∧
    c2g1.relations = c2g2.relations ∧
    VariantA.GeneratePlantUML c2g1 ≠ VariantA.GeneratePlantUML c2g2 ∧
    VariantB.GeneratePlantUML c2g1 ≠ VariantB.GeneratePlantUML c2g2 := by
  exact ⟨by decide, rfl, rfl, by decide, by decide⟩

/-- C2 (amended): the rendered text is a deterministic function of the
registry TOGETHER WITH its iteration order — whenever the struct sequence,
interface sequence and relation list coincide, both renderers produce
byte-identical output; equal map contents alone do not suffice. -/
theorem claimC2_render_deterministic (g1 g2 : UMLGenerator)
    (hs : g1.structs = g2.structs) (hi : g1.interfaces = g2.interfaces)
    (hr : g1.relations = g2.relations) :
    VariantA.GeneratePlantUML g1 = VariantA.GeneratePlantUML g2 ∧
    VariantB.GeneratePlantUML g1 = VariantB.GeneratePlantUML g2 := by
  rw [VariantA.GeneratePlantUML, VariantA.GeneratePlantUML,
    VariantB.GeneratePlantUML, VariantB.GeneratePlantUML, hs, hi, hr]
  exact ⟨rfl, rfl⟩

/-- C2 witness: the determinism theorem applied at a concrete registry. -/
theorem claimC2_witness :
    VariantA.GeneratePlantUML c2g1 = VariantA.GeneratePlantUML c2g1 ∧
    VariantB.GeneratePlantUML c2g1 = VariantB.GeneratePlantUML c2g1 :=
  claimC2_render_deterministic c2g1 c2g1 rfl rfl rfl

/-- C3 counterexample: interface `I` has zero methods, struct `S` has a field
of type `I`; variant A's member-based stage still emits `S -> I` with kind
`implements`, so an empty interface does appear as the `to` endpoint. -/
theorem claimC3_cex :
    lookupIface c3g "I" = some ⟨"I", []⟩ ∧
    (⟨"S", "I", "implements", ""⟩ : Relation) ∈ c3g.relations := by
  exact ⟨by decide, by decide⟩

/-- C3 (amended): the structural-satisfaction stage (shared by both variants)
only ever emits `implements` towards a registered interface with at least one
method, and variant B's member-based stage emits no `implements` at all — so
the invariant holds for variant B's whole inferencer and for variant A's
structural stage; only variant A's member-based stage violates it. -/
theorem claimC3_empty_iface_guard :
    (∀ (g : UMLGenerator) (r : Relation), r ∈ satisfactionRels g →
      g.interfaces.any (fun i => i.name == r.To && !i.methods.isEmpty) = true) ∧
    (∀ (g : UMLGenerator) (r : Relation), r ∈ VariantB.memberRels g →
      r.RType ≠ "implements") := by
  constructor
  · intro g r hr
    rw [mem_satisfactionRels] at hr
    obtain ⟨s, hs, i, hi, _, hb, hr⟩ := hr
    subst hr
    rw [List.any_eq_true]
    refine ⟨i, hi, ?_⟩
    rw [Bool.and_eq_true, Bool.not_eq_true', List.isEmpty_eq_false]
    exact ⟨beq_self_eq_true i.name, hb⟩
  · intro g r hr
    rw [mem_memberRelsB] at hr
    obtain ⟨s, hs, f, hf, ⟨_, hr⟩ | ⟨_, _, hr⟩⟩ := hr
    · subst hr
      show (if f.name == f.type then "composition" else "aggregation") ≠ "implements"
      by_cases h1 : (f.name == f.type) = true
      · rw [if_pos h1]
        decide
      · rw [if_neg h1]
        decide
    · subst hr
      show "aggregation" ≠ "implements"
      decide

/-- C3 witness: both parts of the guard theorem applied at concrete inputs. -/
theorem claimC3_witness :
    c3wg.interfaces.any (fun i => i.name == "Shape" && !i.methods.isEmpty) = true ∧
    ("aggregation" : String) ≠ "implements" :=
  ⟨claimC3_empty_iface_guard.1 c3wg ⟨"Circle", "Shape", "implements", ""⟩ (by decide),
   claimC3_empty_iface_guard.2 c3wg2 ⟨"Car", "Wheel", "aggregation", "*"⟩ (by decide)⟩

theorem flatMap_ite_eq_filter_map {α β : Type} (l : List α) (p : α → Bool) (f : α → β) :
    (l.flatMap fun x => if p x then [f x] else []) = (l.filter p).map f := by
  induction l with
  | nil => rfl
  | cons x t ih =>
    rw [List.flatMap_cons, List.filter_cons]
    by_cases h : p x = true
    · rw [if_pos h, if_pos h, List.map_cons, ← ih]
      rfl
    · rw [if_neg h, if_neg h, ← ih]
      rfl

theorem flatMap_ite_nil_eq_filter_map {α β : Type} (l : List α) (p : α → Bool) (f : α → β) :
    (l.flatMap fun x => if p x then [] else [f x]) = (l.filter (fun x => !p x)).map f := by
  induction l with
  | nil => rfl
  | cons x t ih =>
    by_cases h : p x = true
    · simp [List.flatMap_cons, List.filter_cons, h, ih]
    · simp [List.flatMap_cons, List.filter_cons, h, ih]

/-- C4 counterexample: in variant B the registry holds `A` with the embedded
registered field `B`, yet the relation list contains no `extends` relation at
all — the embedding is classified `composition` instead. -/
theorem claimC4_cex :
    lookupStruct c4g "A" = some ⟨"A", [⟨"B", "B"⟩], []⟩ ∧
    lookupStruct c4g "B" = some ⟨"B", [], []⟩ ∧
    c4g.relations = [⟨"A", "B", "composition", "1"⟩] ∧
    c4g.relations.count ⟨"A", "B", "extends", "1"⟩ = 0 := by
  exact ⟨by decide, by decide, by decide, by decide⟩

/-- C4 (amended): in both variants the renderer never emits an attribute line
for a field whose name equals its type — the emitted attribute lines are
exactly those of the non-embedded fields, in order; an embedded field whose
type is registered always yields the corresponding member relation, which is
`extends` in variant A but `composition` in variant B; and concretely one
embedded field yields exactly one such relation. -/
theorem claimC4_embedding :
    (∀ fs : List FieldInfo, VariantA.fieldLines fs =
      (fs.filter (fun f => f.name != f.type)).map
        (fun f => "    +" ++ f.name ++ ": " ++ f.type ++ "\n")) ∧
    (∀ fs : List FieldInfo, VariantB.fieldLines fs =
      (fs.filter (fun f => !(f.name == f.type))).map
        (fun f => "  +" ++ f.name ++ ": " ++ f.type ++ "\n")) ∧
    (∀ (g : UMLGenerator) (s : StructInfo) (f : FieldInfo),
      s ∈ g.structs → f ∈ s.fields → f.name = f.type →
      (lookupStruct g f.type).isSome = true →
      (⟨s.name, stripLead "*" f.type, "extends", "1"⟩ : Relation) ∈ VariantA.memberRels g) ∧
    (∀ (g : UMLGenerator) (s : StructInfo) (f : FieldInfo),
      s ∈ g.structs → f ∈ s.fields → f.name = f.type →
      (lookupStruct g f.type).isSome = true →
      (⟨s.name, f.type, "composition", "1"⟩ : Relation) ∈ VariantB.memberRels g) ∧
    c4ga.relations.count ⟨"A", "B", "extends", "1"⟩ = 1 ∧
    c4g.relations.count ⟨"A", "B", "composition", "1"⟩ = 1 := by
  refine ⟨?_, ?_, ?_, ?_, by decide, by decide⟩
  · intro fs
    exact flatMap_ite_eq_filter_map fs _ _
  · intro fs
    exact flatMap_ite_nil_eq_filter_map fs _ _
  · intro g s f hs hf hn hl
    rw [mem_memberRelsA]
    refine ⟨s, hs, f, hf, Or.inl ⟨hl, ?_⟩⟩
    rw [VariantA.relKind, if_pos (beq_iff_eq.mpr hn)]
  · intro g s f hs hf hn hl
    rw [mem_memberRelsB]
    refine ⟨s, hs, f, hf, Or.inl ⟨hl, ?_⟩⟩
    rw [if_pos (beq_iff_eq.mpr hn)]

/-- C4 witness: both membership parts of the embedding theorem at a concrete
registry. -/
theorem claimC4_witness :
    (⟨"A", "B", "extends", "1"⟩ : Relation) ∈ VariantA.memberRels c4wreg ∧
    (⟨"A", "B", "composition", "1"⟩ : Relation) ∈ VariantB.memberRels c4wreg :=
  ⟨claimC4_embedding.2.2.1 c4wreg ⟨"A", [⟨"B", "B"⟩], []⟩ ⟨"B", "B"⟩
      (by decide) (by decide) rfl (by decide),
   claimC4_embedding.2.2.2.1 c4wreg ⟨"A", [⟨"B", "B"⟩], []⟩ ⟨"B", "B"⟩
      (by decide) (by decide) rfl (by decide)⟩

/-- C5 counterexample: interface `I` declares method `M`; struct `S` has no
method named `M` but holds a field of type `I`.  Variant A's inferencer still
emits `S -> I` with kind `implements` (from the member-based stage), so the
"only if" direction of the claim fails for the inferencer as a whole. -/
theorem claimC5_cex :
    lookupStruct c5g "S" = some ⟨"S", [⟨"f", "I"⟩], []⟩ ∧
    lookupIface c5g "I" = some ⟨"I", [⟨"M", [], ""⟩]⟩ ∧
    implementsAll ⟨"S", [⟨"f", "I"⟩], []⟩ ⟨"I", [⟨"M", [], ""⟩]⟩ = false ∧
    (⟨"S", "I", "implements", ""⟩ : Relation) ∈ c5g.relations := by
  exact ⟨by decide, by decide, by decide, by decide⟩

/-- C5 (amended): the structural-satisfaction stage emits `S -> I` exactly for
the pairs where every method name of `I` occurs among `S`'s method names and
`I` has at least one method — name-only matching, signatures never compared;
the Shape/Circle/Square example behaves as claimed.  (Variant A's member-based
stage can emit additional `implements` relations for interface-typed fields
regardless of method coverage — see the counterexample.) -/
theorem claimC5_satisfaction_iff :
    (∀ (g : UMLGenerator) (r : Relation), r ∈ satisfactionRels g ↔
      ∃ s, s ∈ g.structs ∧ ∃ i, i ∈ g.interfaces ∧
        implementsAll s i = true ∧ i.methods ≠ [] ∧
        r = ⟨s.name, i.name, "implements", ""⟩) ∧
    (∀ (s : StructInfo) (i : InterfaceInfo), implementsAll s i = true ↔
      ∀ m ∈ i.methods, ∃ sm ∈ s.methods, sm.name = m.name) ∧
    c5shapes.relations = [⟨"Circle", "Shape", "implements", ""⟩] := by
  refine ⟨fun g r => mem_satisfactionRels, ?_, by decide⟩
  intro s i
  simp [implementsAll, List.all_eq_true, List.any_eq_true, beq_iff_eq]

/-- C5 witness: the characterization applied at a concrete registry, both
for deriving a membership and for the name-matching criterion. -/
theorem claimC5_witness :
    (⟨"Circle", "Shape", "implements", ""⟩ : Relation) ∈ satisfactionRels c5wg ∧
    implementsAll ⟨"Circle", [], [⟨"Area", [], "float64"⟩]⟩
      ⟨"Shape", [⟨"Area", [], "float64"⟩]⟩ = true :=
  ⟨(claimC5_satisfaction_iff.1 c5wg ⟨"Circle", "Shape", "implements", ""⟩).mpr
      ⟨⟨"Circle", [], [⟨"Area", [], "float64"⟩]⟩, by decide,
       ⟨"Shape", [⟨"Area", [], "float64"⟩]⟩, by decide, by decide, by decide, by decide⟩,
   (claimC5_satisfaction_iff.2.1 ⟨"Circle", [], [⟨"Area", [], "float64"⟩]⟩
      ⟨"Shape", [⟨"Area", [], "float64"⟩]⟩).mpr (by decide)⟩

/-- C6: a field whose reference carries the slice prefix and whose stripped
base names a registered struct always yields the `aggregation` relation with
cardinality `*` in variant B's member stage; the renderer quotes the
cardinality into the aggregation line when it is `*`; and the Wheel/Car pass
produces exactly that relation. -/
theorem claimC6_slice_aggregation :
    (∀ (g : UMLGenerator) (s : StructInfo) (f : FieldInfo),
      s ∈ g.structs → f ∈ s.fields → hasLead "[]" f.type = true →
      (lookupStruct g (stripLead "[]" f.type)).isSome = true →
      (⟨s.name, stripLead "[]" f.type, "aggregation", "*"⟩ : Relation) ∈ VariantB.memberRels g) ∧
    (∀ a b : String, VariantB.relLine ⟨a, b, "aggregation", "*"⟩ =
      a ++ " o-- \"" ++ "*" ++ "\" " ++ b ++ "\n") ∧
    c6g.relations = [⟨"Car", "Wheel", "aggregation", "*"⟩] := by
  refine ⟨?_, ?_, by decide⟩
  · intro g s f hs hf hsl hl
    rw [mem_memberRelsB]
    exact ⟨s, hs, f, hf, Or.inr ⟨hsl, hl, rfl⟩⟩
  · intro a b
    rfl

/-- C6 witness: the slice rule applied at a concrete registry. -/
theorem claimC6_witness :
    (⟨"Car", "Wheel", "aggregation", "*"⟩ : Relation) ∈ VariantB.memberRels c6wreg :=
  claimC6_slice_aggregation.1 c6wreg ⟨"Car", [⟨"ws", "[]Wheel"⟩], []⟩ ⟨"ws", "[]Wheel"⟩
    (by decide) (by decide) (by decide) (by decide)

theorem any_name_addMethod (l : List StructInfo) (r n : String) (m : MethodInfo) :
    (addMethod l r m).any (fun s => s.name == n) = l.any (fun s => s.name == n) := by
  induction l with
  | nil => rfl
  | cons x t ih =>
    rw [addMethod]
    split
    · simp
    · simp [ih]

theorem any_name_processDecl {g : UMLGenerator} {d : RawDecl} {n : String}
    (h : (processDecl g d).structs.any (fun s => s.name == n) = true) :
    g.structs.any (fun s => s.name == n) = true ∨ d.structName? = some n := by
  cases d with
  | typeStruct m fs =>
    rw [processDecl] at h
    rw [List.any_eq_true] at h
    obtain ⟨x, hx, hxn⟩ := h
    rcases mem_setStruct hx with hx | hx
    · right
      rw [RawDecl.structName?]
      rw [hx] at hxn
      rw [beq_iff_eq] at hxn
      exact congrArg some hxn
    · left
      rw [List.any_eq_true]
      exact ⟨x, hx, hxn⟩
  | typeIface m ms => exact Or.inl h
  | funcMethod r m =>
    rw [processDecl] at h
    rw [any_name_addMethod] at h
    exact Or.inl h
  | otherDecl => exact Or.inl h

theorem any_iname_processDecl {g : UMLGenerator} {d : RawDecl} {n : String}
    (h : (processDecl g d).interfaces.any (fun i => i.name == n) = true) :
    g.interfaces.any (fun i => i.name == n) = true ∨ d.ifaceName? = some n := by
  cases d with
  | typeStruct m fs => exact Or.inl h
  | typeIface m ms =>
    rw [processDecl] at h
    rw [List.any_eq_true] at h
    obtain ⟨x, hx, hxn⟩ := h
    rcases mem_setIface hx with hx | hx
    · right
      rw [RawDecl.ifaceName?]
      rw [hx] at hxn
      rw [beq_iff_eq] at hxn
      exact congrArg some hxn
    · left
      rw [List.any_eq_true]
      exact ⟨x, hx, hxn⟩
  | funcMethod r m => exact Or.inl h
  | otherDecl => exact Or.inl h

theorem any_name_processDecls {ds : List RawDecl} {g : UMLGenerator} {n : String}
    (h : (processDecls g ds).structs.any (fun s => s.name == n) = true) :
    g.structs.any (fun s => s.name == n) = true ∨
      ds.any (fun d => d.structName? == some n) = true := by
  induction ds generalizing g with
  | nil => exact Or.inl h
  | cons d t ih =>
    rcases ih h with h1 | h1
    · rcases any_name_processDecl h1 with h2 | h2
      · exact Or.inl h2
      · right
        rw [List.any_cons]
        apply Bool.or_eq_true_iff.mpr
        left
        rw [h2]
        exact beq_self_eq_true _
    · right
      rw [List.any_cons]
      apply Bool.or_eq_true_iff.mpr
      exact Or.inr h1

theorem any_iname_processDecls {ds : List RawDecl} {g : UMLGenerator} {n : String}
    (h : (processDecls g ds).interfaces.any (fun i => i.name == n) = true) :
    g.interfaces.any (fun i => i.name == n) = true ∨
      ds.any (fun d => d.ifaceName? == some n) = true := by
  induction ds generalizing g with
  | nil => exact Or.inl h
  | cons d t ih =>
    rcases ih h with h1 | h1
    · rcases any_iname_processDecl h1 with h2 | h2
      · exact Or.inl h2
      · right
        rw [List.any_cons]
        apply Bool.or_eq_true_iff.mpr
        left
        rw [h2]
        exact beq_self_eq_true _
    · right
      rw [List.any_cons]
      apply Bool.or_eq_true_iff.mpr
      exact Or.inr h1

theorem any_name_foldPass {dss : List (List RawDecl)} {g : UMLGenerator} {n : String}
    (h : ((dss.foldl VariantA.parseFileOk g).structs.any (fun s => s.name == n)) = true) :
    g.structs.any (fun s => s.name == n) = true ∨
      dss.any (fun ds => ds.any (fun d => d.structName? == some n)) = true := by
  induction dss generalizing g with
  | nil => exact Or.inl h
  | cons ds t ih =>
    rcases ih h with h1 | h1
    · rcases any_name_processDecls h1 with h2 | h2
      · exact Or.inl h2
      · right
        rw [List.any_cons]
        exact Bool.or_eq_true_iff.mpr (Or.inl h2)
    · right
      rw [List.any_cons]
      exact Bool.or_eq_true_iff.mpr (Or.inr h1)

theorem any_iname_foldPass {dss : List (List RawDecl)} {g : UMLGenerator} {n : String}
    (h : ((dss.foldl VariantA.parseFileOk g).interfaces.any (fun i => i.name == n)) = true) :
    g.interfaces.any (fun i => i.name == n) = true ∨
      dss.any (fun ds => ds.any (fun d => d.ifaceName? == some n)) = true := by
  induction dss generalizing g with
  | nil => exact Or.inl h
  | cons ds t ih =>
    rcases ih h with h1 | h1
    · rcases any_iname_processDecls h1 with h2 | h2
      · exact Or.inl h2
      · right
        rw [List.any_cons]
        exact Bool.or_eq_true_iff.mpr (Or.inl h2)
    · right
      rw [List.any_cons]
      exact Bool.or_eq_true_iff.mpr (Or.inr h1)

theorem runUnits_allOk : ∀ (units : List SourceUnit) (g : UMLGenerator),
    units.all (fun u => u.decls.isSome) = true →
    VariantA.runUnits g units =
      .ok (units.foldl (fun h u => VariantA.parseFileOk h (u.decls.getD [])) g) := by
  intro units
  induction units with
  | nil => intro g _; rfl
  | cons u t ih =>
    intro g hall
    rw [List.all_cons, Bool.and_eq_true] at hall
    obtain ⟨ds, hd⟩ := Option.isSome_iff_exists.mp hall.1
    rw [List.foldl_cons, VariantA.runUnits, VariantA.ParseGoFile, hd]
    exact ih _ hall.2

/-- C7: every pass rebuilds from empty state — `GenerateUMLFromDirectory`
first `Reset`s, and `Watch` allocates a fresh generator, so the result is
independent of any prior generator state; on a parse-clean unit set the pass
equals the pure fold from the empty generator; and every struct or interface
name registered after a pass is declared in some current unit — so a type
declared only in a deleted unit (and its relations, which are recomputed from
the registry) cannot survive into the next pass. -/
theorem claimC7_rebuild_from_empty :
    (∀ (g g' : UMLGenerator) (units : List SourceUnit),
      VariantA.GenerateUMLFromDirectory g units =
        VariantA.GenerateUMLFromDirectory g' units) ∧
    (∀ (g : UMLGenerator) (units : List SourceUnit),
      units.all (fun u => u.decls.isSome) = true →
      VariantA.GenerateUMLFromDirectory g units =
        .ok (VariantA.runPassOk (units.map (fun u => u.decls.getD [])))) ∧
    (∀ (dss : List (List RawDecl)) (n : String),
      (lookupStruct (VariantA.runPassOk dss) n).isSome = true →
      dss.any (fun ds => ds.any (fun d => d.structName? == some n)) = true) ∧
    (∀ (dss : List (List RawDecl)) (n : String),
      (lookupIface (VariantA.runPassOk dss) n).isSome = true →
      dss.any (fun ds => ds.any (fun d => d.ifaceName? == some n)) = true) := by
  refine ⟨fun g g' units => rfl, ?_, ?_, ?_⟩
  · intro g units hall
    rw [VariantA.GenerateUMLFromDirectory, runUnits_allOk units g.Reset hall,
      VariantA.runPassOk, List.foldl_map]
    rfl
  · intro dss n h
    rw [lookupStruct, List.find?_isSome] at h
    have h2 : (VariantA.runPassOk dss).structs.any (fun s => s.name == n) = true := by
      rw [List.any_eq_true]
      exact h
    rcases any_name_foldPass h2 with h3 | h3
    · cases h3
    · exact h3
  · intro dss n h
    rw [lookupIface, List.find?_isSome] at h
    have h2 : (VariantA.runPassOk dss).interfaces.any (fun i => i.name == n) = true := by
      rw [List.any_eq_true]
      exact h
    rcases any_iname_foldPass h2 with h3 | h3
    · cases h3
    · exact h3

/-- C7 witness: the pass on a concrete parse-clean unit set equals the pure
fold from the empty generator, and a registered name is traced to a current
declaration. -/
theorem claimC7_witness :
    VariantA.GenerateUMLFromDirectory NewUMLGenerator c7wunits =
      .ok (VariantA.runPassOk (c7wunits.map (fun u => u.decls.getD []))) ∧
    ([[RawDecl.typeStruct "Engine" []]].any
      (fun ds => ds.any (fun d => d.structName? == some "Engine"))) = true :=
  ⟨claimC7_rebuild_from_empty.2.1 NewUMLGenerator c7wunits (by decide),
   claimC7_rebuild_from_empty.2.2.1 [[RawDecl.typeStruct "Engine" []]] "Engine" (by decide)⟩

theorem runUnits_hasMalformed : ∀ (units : List SourceUnit) (g : UMLGenerator),
    units.any (fun u => u.decls.isNone) = true →
    ∃ p, VariantA.runUnits g units = .error (parseErrMsg p) ∧
      units.any (fun u => u.path == p && u.decls.isNone) = true := by
  intro units
  induction units with
  | nil => intro g h; cases h
  | cons u t ih =>
    intro g hany
    cases hu : u.decls with
    | none =>
      refine ⟨u.path, ?_, ?_⟩
      · rw [VariantA.runUnits, VariantA.ParseGoFile, hu]
      · rw [List.any_cons]
        apply Bool.or_eq_true_iff.mpr
        left
        rw [Bool.and_eq_true]
        exact ⟨beq_self_eq_true _, by rw [hu]; rfl⟩
    | some ds =>
      rw [List.any_cons, Bool.or_eq_true_iff] at hany
      rcases hany with hfirst | hrest
      · rw [hu] at hfirst
        cases hfirst
      · obtain ⟨p, he, hp⟩ := ih (VariantA.parseFileOk g ds) hrest
        refine ⟨p, ?_, ?_⟩
        · rw [VariantA.runUnits, VariantA.ParseGoFile, hu]
          exact he
        · rw [List.any_cons]
          exact Bool.or_eq_true_iff.mpr (Or.inr hp)

/-- C8 counterexample: the initial forced pass of variant A's `Watch` is
fed a malformed unit while a well-formed tick follows — `Watch` returns
immediately, producing no output and processing zero ticks, even though the
pending tick would have succeeded on its own; the single failed pass does
terminate the watch process, contrary to the claim. -/
theorem claimC8_cex :
    VariantA.Watch [⟨"bad.go", none⟩] [[⟨"ok.go", some []⟩]] = [] ∧
    (VariantA.watchTick [⟨"ok.go", some []⟩]).isSome = true := by
  exact ⟨by decide, by decide⟩

/-- C8 (amended): a malformed unit makes the whole pass abort with the
descriptive parse error naming some malformed unit's path, before anything
is rendered; a failure in a pass triggered FROM THE LOOP is reported and the
loop continues at the next tick (every in-loop tick is processed); but a
parse failure during variant A's initial forced pass makes `Watch` return,
terminating the watch — the loop runs only when the initial pass succeeds.
Variant B's watcher does continue into its loop even when the initial run
fails. -/
theorem claimC8_loop_vs_initial_failure :
    (∀ (g : UMLGenerator) (units : List SourceUnit),
      units.any (fun u => u.decls.isNone) = true →
      ∃ p, VariantA.GenerateUMLFromDirectory g units = .error (parseErrMsg p) ∧
        units.any (fun u => u.path == p && u.decls.isNone) = true) ∧
    (∀ units : List SourceUnit,
      units.any (fun u => u.decls.isNone) = true →
      VariantA.watchTick units = none) ∧
    (∀ (pre : List (List SourceUnit)) (us : List SourceUnit) (post : List (List SourceUnit)),
      VariantA.watchRun (pre ++ us :: post) =
        VariantA.watchRun pre ++ VariantA.watchTick us :: VariantA.watchRun post) ∧
    (∀ (initial : List SourceUnit) (ticks : List (List SourceUnit)),
      initial.any (fun u => u.decls.isNone) = true →
      VariantA.Watch initial ticks = []) ∧
    (∀ (initial : List SourceUnit) (ticks : List (List SourceUnit)),
      initial.all (fun u => u.decls.isSome) = true →
      ∃ out, VariantA.Watch initial ticks = some out :: VariantA.watchRun ticks) ∧
    (∀ (u : SourceUnit) (ticks : List SourceUnit),
      (VariantB.Watch u ticks).length = ticks.length + 1) := by
  refine ⟨?_, ?_, ?_, ?_, ?_, ?_⟩
  · intro g units h
    exact runUnits_hasMalformed units g.Reset h
  · intro units h
    obtain ⟨p, he, _⟩ := runUnits_hasMalformed units NewUMLGenerator.Reset h
    rw [VariantA.watchTick, VariantA.GenerateUMLFromDirectory, he]
  · intro pre us post
    rw [VariantA.watchRun, VariantA.watchRun, VariantA.watchRun, List.map_append, List.map_cons]
  · intro initial ticks h
    obtain ⟨p, he, _⟩ := runUnits_hasMalformed initial NewUMLGenerator.Reset h
    rw [VariantA.Watch, VariantA.GenerateUMLFromDirectory, he]
  · intro initial ticks h
    rw [VariantA.Watch, VariantA.GenerateUMLFromDirectory, runUnits_allOk initial _ h]
    exact ⟨_, rfl⟩
  · intro u ticks
    rw [VariantB.Watch, List.length_cons, List.length_map]

/-- C8 witness: on concrete inputs, variant A's watch dies on a malformed
initial pass with a good tick pending, a malformed in-loop tick renders
nothing, and variant B's watch still runs its whole loop after a malformed
initial run. -/
theorem claimC8_witness :
    VariantA.Watch [⟨"bad.go", none⟩] [[⟨"ok.go", some []⟩], [⟨"bad2.go", none⟩]] = [] ∧
    VariantA.watchTick [⟨"bad.go", none⟩] = none ∧
    (VariantB.Watch ⟨"bad.go", none⟩ [⟨"ok.go", some []⟩]).length = 2 :=
  ⟨claimC8_loop_vs_initial_failure.2.2.2.1
      [⟨"bad.go", none⟩] [[⟨"ok.go", some []⟩], [⟨"bad2.go", none⟩]] (by decide),
   claimC8_loop_vs_initial_failure.2.1 [⟨"bad.go", none⟩] (by decide),
   claimC8_loop_vs_initial_failure.2.2.2.2.2 ⟨"bad.go", none⟩ [⟨"ok.go", some []⟩]⟩

theorem mem_names_setStruct {l : List StructInfo} {info : StructInfo} {x : String}
    (h : x ∈ (setStruct l info).map (fun s => s.name)) :
    x ∈ l.map (fun s => s.name) ∨ x = info.name := by
  rw [List.mem_map] at h
  obtain ⟨s, hs, hx⟩ := h
  rcases mem_setStruct hs with hs | hs
  · exact Or.inr (hx ▸ congrArg StructInfo.name hs ▸ rfl)
  · exact Or.inl (List.mem_map.mpr ⟨s, hs, hx⟩)

theorem nodup_names_setStruct {l : List StructInfo} {info : StructInfo}
    (h : (l.map (fun s => s.name)).Nodup) :
    ((setStruct l info).map (fun s => s.name)).Nodup := by
  induction l with
  | nil => simp [setStruct]
  | cons s t ih =>
    rw [List.map_cons, List.nodup_cons] at h
    rw [setStruct]
    split
    · rename_i hbeq
      rw [beq_iff_eq] at hbeq
      rw [List.map_cons, List.nodup_cons]
      exact ⟨hbeq ▸ h.1, h.2⟩
    · rename_i hbeq
      rw [List.map_cons, List.nodup_cons]
      refine ⟨?_, ih h.2⟩
      intro hmem
      rcases mem_names_setStruct hmem with hmem | hmem
      · exact h.1 hmem
      · exact hbeq (beq_iff_eq.mpr hmem)

theorem mem_names_setIface {l : List InterfaceInfo} {info : InterfaceInfo} {x : String}
    (h : x ∈ (setIface l info).map (fun i => i.name)) :
    x ∈ l.map (fun i => i.name) ∨ x = info.name := by
  rw [List.mem_map] at h
  obtain ⟨s, hs, hx⟩ := h
  rcases mem_setIface hs with hs | hs
  · exact Or.inr (hx ▸ congrArg InterfaceInfo.name hs ▸ rfl)
  · exact Or.inl (List.mem_map.mpr ⟨s, hs, hx⟩)

theorem nodup_names_setIface {l : List InterfaceInfo} {info : InterfaceInfo}
    (h : (l.map (fun i => i.name)).Nodup) :
    ((setIface l info).map (fun i => i.name)).Nodup := by
  induction l with
  | nil => simp [setIface]
  | cons s t ih =>
    rw [List.map_cons, List.nodup_cons] at h
    rw [setIface]
    split
    · rename_i hbeq
      rw [beq_iff_eq] at hbeq
      rw [List.map_cons, List.nodup_cons]
      exact ⟨hbeq ▸ h.1, h.2⟩
    · rename_i hbeq
      rw [List.map_cons, List.nodup_cons]
      refine ⟨?_, ih h.2⟩
      intro hmem
      rcases mem_names_setIface hmem with hmem | hmem
      · exact h.1 hmem
      · exact hbeq (beq_iff_eq.mpr hmem)

theorem nodup_names_processDecl {g : UMLGenerator} (d : RawDecl)
    (h1 : (g.structs.map (fun s => s.name)).Nodup)
    (h2 : (g.interfaces.map (fun i => i.name)).Nodup) :
    ((processDecl g d).structs.map (fun s => s.name)).Nodup ∧
    ((processDecl g d).interfaces.map (fun i => i.name)).Nodup := by
  cases d with
  | typeStruct n fs => exact ⟨nodup_names_setStruct h1, h2⟩
  | typeIface n ms => exact ⟨h1, nodup_names_setIface h2⟩
  | funcMethod r m =>
    refine ⟨?_, h2⟩
    show ((addMethod g.structs r (buildMethod m)).map (fun s => s.name)).Nodup
    rw [map_name_addMethod]
    exact h1
  | otherDecl => exact ⟨h1, h2⟩

theorem nodup_names_processDecls {ds : List RawDecl} {g : UMLGenerator}
    (h1 : (g.structs.map (fun s => s.name)).Nodup)
    (h2 : (g.interfaces.map (fun i => i.name)).Nodup) :
    ((processDecls g ds).structs.map (fun s => s.name)).Nodup ∧
    ((processDecls g ds).interfaces.map (fun i => i.name)).Nodup := by
  induction ds generalizing g with
  | nil => exact ⟨h1, h2⟩
  | cons d t ih =>
    obtain ⟨k1, k2⟩ := nodup_names_processDecl d h1 h2
    exact ih k1 k2

theorem nodup_names_foldPass {dss : List (List RawDecl)} {g : UMLGenerator}
    (h1 : (g.structs.map (fun s => s.name)).Nodup)
    (h2 : (g.interfaces.map (fun i => i.name)).Nodup) :
    (((dss.foldl VariantA.parseFileOk g).structs.map (fun s => s.name)).Nodup ∧
     ((dss.foldl VariantA.parseFileOk g).interfaces.map (fun i => i.name)).Nodup) := by
  induction dss generalizing g with
  | nil => exact ⟨h1, h2⟩
  | cons ds t ih =>
    obtain ⟨k1, k2⟩ := @nodup_names_processDecls ds g h1 h2
    exact ih k1 k2

/-- C9 counterexample: after extraction the name `B` is registered both as a
TypeRecord and as an InterfaceRecord — the claimed mutual exclusion is not
enforced anywhere in the extractor. -/
theorem claimC9_cex :
    (lookupStruct c9g "B").isSome = true ∧ (lookupIface c9g "B").isSome = true := by
  exact ⟨by decide, by decide⟩

/-- C9 (amended): names are unique within each of the two registry maps after
any pass (map keys cannot repeat), and — whenever no registered struct name
starts with `*`, which is true of every name `go/parser` can produce — every
relation one `identifyRelations` call appends has its `From` endpoint
registered as a struct and its `To` endpoint registered as a struct or an
interface, so references to unregistered types produce no relation.  The
claimed struct/interface mutual exclusion, however, is not enforced (see the
counterexample). -/
theorem claimC9_registry_invariants :
    (∀ dss : List (List RawDecl),
      ((VariantA.runPassOk dss).structs.map (fun s => s.name)).Nodup ∧
      ((VariantA.runPassOk dss).interfaces.map (fun i => i.name)).Nodup) ∧
    (∀ g : UMLGenerator, g.structs.all (fun s => !(hasLead "*" s.name)) = true →
      ∀ r ∈ VariantA.newRels g,
        g.structs.any (fun s => s.name == r.From) = true ∧
        (g.structs.any (fun s => s.name == r.To) = true ∨
         g.interfaces.any (fun i => i.name == r.To) = true)) := by
  constructor
  · intro dss
    exact nodup_names_foldPass List.nodup_nil List.nodup_nil
  · intro g hA r hr
    rw [VariantA.newRels, List.mem_append] at hr
    rcases hr with hr | hr
    · rw [mem_memberRelsA] at hr
      obtain ⟨s, hs, f, hf, ⟨hl, hr⟩ | ⟨hl, hr⟩⟩ := hr
      · subst hr
        rw [lookupStruct, List.find?_isSome] at hl
        obtain ⟨x, hx, hxe⟩ := hl
        have hxeq : x.name = f.type := beq_iff_eq.mp hxe
        have hstar : hasLead "*" f.type = false := by
          have := List.all_eq_true.mp hA x hx
          rw [Bool.not_eq_true'] at this
          rw [← hxeq]
          exact this
        constructor
        · rw [List.any_eq_true]
          exact ⟨s, hs, beq_self_eq_true _⟩
        · left
          rw [List.any_eq_true]
          refine ⟨x, hx, ?_⟩
          show (x.name == stripLead "*" f.type) = true
          rw [stripLead_of_not_lead hstar]
          exact hxe
      · subst hr
        rw [lookupIface, List.find?_isSome] at hl
        obtain ⟨x, hx, hxe⟩ := hl
        constructor
        · rw [List.any_eq_true]
          exact ⟨s, hs, beq_self_eq_true _⟩
        · right
          rw [List.any_eq_true]
          exact ⟨x, hx, hxe⟩
    · rw [mem_satisfactionRels] at hr
      obtain ⟨s, hs, i, hi, _, _, hr⟩ := hr
      subst hr
      constructor
      · rw [List.any_eq_true]
        exact ⟨s, hs, beq_self_eq_true _⟩
      · right
        rw [List.any_eq_true]
        exact ⟨i, hi, beq_self_eq_true _⟩

/-- C9 witness: key uniqueness on a concrete pass, and endpoint closure for a
concrete relation of a concrete registry. -/
theorem claimC9_witness :
    (((VariantA.runPassOk [[RawDecl.typeStruct "Engine" []]]).structs.map
        (fun s => s.name)).Nodup ∧
      ((VariantA.runPassOk [[RawDecl.typeStruct "Engine" []]]).interfaces.map
        (fun i => i.name)).Nodup) ∧
    (c9wreg.structs.any (fun s => s.name == "Car") = true ∧
      (c9wreg.structs.any (fun s => s.name == "Engine") = true ∨
       c9wreg.interfaces.any (fun i => i.name == "Engine") = true)) :=
  ⟨claimC9_registry_invariants.1 [[RawDecl.typeStruct "Engine" []]],
   claimC9_registry_invariants.2 c9wreg (by decide)
     ⟨"Car", "Engine", "aggregation", "1"⟩ (by decide)⟩

theorem memberRelsA_eq_flatMap_innerA (g : UMLGenerator) :
    VariantA.memberRels g = g.structs.flatMap (innerA g) := rfl

theorem count_innerA_ne {g : UMLGenerator} {s : StructInfo} (hne : s.name ≠ "Car") :
    (innerA g s).count c10rel = 0 := by
  rw [List.count_eq_zero]
  intro hmem
  rw [innerA, List.mem_flatMap] at hmem
  obtain ⟨f, hf, hmem⟩ := hmem
  rw [List.mem_append] at hmem
  rcases hmem with hmem | hmem
  · rw [mem_if_single] at hmem
    exact hne (congrArg Relation.From hmem.2).symm
  · rw [mem_if_single] at hmem
    exact hne (congrArg Relation.From hmem.2).symm

theorem count_innerA_car {g : UMLGenerator} {s : StructInfo} (hname : s.name = "Car")
    (hfields : s.fields = [⟨"e", "Engine"⟩])
    (hEng : (lookupStruct g "Engine").isSome = true) :
    (innerA g s).count c10rel = 1 := by
  rw [innerA, hfields]
  have hstrip : stripLead "*" "Engine" = "Engine" := by decide
  have hkind : VariantA.relKind ⟨"e", "Engine"⟩ = "aggregation" := by decide
  simp only [List.flatMap_cons, List.flatMap_nil, List.append_nil, hstrip, hkind, hname]
  rw [if_pos hEng, List.count_append]
  by_cases hI : (lookupIface g "Engine").isSome = true
  · rw [if_pos hI]
    decide
  · rw [if_neg hI]
    decide

theorem sum_innerA {g : UMLGenerator} (hEng : (lookupStruct g "Engine").isSome = true) :
    ∀ l : List StructInfo, (∀ s ∈ l, s.name = "Car" → s.fields = [⟨"e", "Engine"⟩]) →
    (l.map (fun s => (innerA g s).count c10rel)).sum = l.countP (fun s => s.name == "Car") := by
  intro l
  induction l with
  | nil => intro _; rfl
  | cons s t ih =>
    intro hl
    rw [List.map_cons, List.sum_cons, List.countP_cons,
      ih (fun x hx => hl x (List.mem_cons_of_mem _ hx))]
    by_cases hc : s.name = "Car"
    · rw [count_innerA_car hc (hl s (List.mem_cons_self _ _) hc) hEng,
        if_pos (beq_iff_eq.mpr hc)]
      exact Nat.add_comm _ _
    · rw [count_innerA_ne hc, if_neg (fun h => hc (beq_iff_eq.mp h))]
      exact Nat.zero_add _ ▸ rfl

theorem count_memberRels_inv {g : UMLGenerator} (hInv : c10Inv g) :
    (VariantA.memberRels g).count c10rel = 1 := by
  obtain ⟨h1, h2, h3⟩ := hInv
  have hEng : (lookupStruct g "Engine").isSome = true := by
    rw [lookupStruct, List.find?_isSome]
    exact List.any_eq_true.mp h3
  rw [memberRelsA_eq_flatMap_innerA, count_flatMap_eq_sum, sum_innerA hEng g.structs h2, h1]

theorem count_satisfactionRels_zero (g : UMLGenerator) :
    (satisfactionRels g).count c10rel = 0 := by
  rw [List.count_eq_zero]
  intro hmem
  rw [mem_satisfactionRels] at hmem
  obtain ⟨s, _, i, _, _, _, hr⟩ := hmem
  have h2 : ("aggregation" : String) = "implements" := congrArg Relation.RType hr
  exact absurd h2 (by decide)

theorem count_newRels_inv {g : UMLGenerator} (hInv : c10Inv g) :
    (VariantA.newRels g).count c10rel = 1 := by
  rw [VariantA.newRels, List.count_append, count_memberRels_inv hInv,
    count_satisfactionRels_zero]

theorem countP_name_setStruct {l : List StructInfo} {info : StructInfo} {c : String}
    (h : (info.name == c) = false) :
    (setStruct l info).countP (fun s => s.name == c) = l.countP (fun s => s.name == c) := by
  induction l with
  | nil => simp [setStruct, List.countP_cons, h]
  | cons s t ih =>
    rw [setStruct]
    split
    · rename_i hbeq
      rw [beq_iff_eq] at hbeq
      rw [List.countP_cons, List.countP_cons, hbeq]
    · rw [List.countP_cons, List.countP_cons, ih]

theorem countP_name_addMethod {l : List StructInfo} {r : String} {m : MethodInfo} {c : String} :
    (addMethod l r m).countP (fun s => s.name == c) = l.countP (fun s => s.name == c) := by
  induction l with
  | nil => rfl
  | cons s t ih =>
    rw [addMethod]
    split
    · rw [List.countP_cons, List.countP_cons]
    · rw [List.countP_cons, List.countP_cons, ih]

theorem c10Inv_processDecl {g : UMLGenerator} {d : RawDecl}
    (hInv : c10Inv g) (hb : c10Benign d = true) : c10Inv (processDecl g d) := by
  obtain ⟨h1, h2, h3⟩ := hInv
  cases d with
  | typeStruct n fs =>
    rw [c10Benign, Bool.and_eq_true, Bool.not_eq_true', Bool.not_eq_true'] at hb
    obtain ⟨hbc, hbe⟩ := hb
    refine ⟨?_, ?_, ?_⟩
    · show (setStruct g.structs ⟨n, fieldsOf fs, []⟩).countP (fun s => s.name == "Car") = 1
      rw [countP_name_setStruct hbc]
      exact h1
    · intro s hs hsc
      rcases mem_setStruct hs with hs | hs
      · exfalso
        have hn : n = "Car" := by rw [← hsc, hs]
        have hx := beq_iff_eq.mpr hn
        rw [hbc] at hx
        cases hx
      · exact h2 s hs hsc
    · obtain ⟨x, hx, hxe⟩ := List.any_eq_true.mp h3
      show (setStruct g.structs ⟨n, fieldsOf fs, []⟩).any (fun s => s.name == "Engine") = true
      rw [List.any_eq_true]
      refine ⟨x, ?_, hxe⟩
      apply mem_setStruct_of_ne hx
      intro hcon
      have hxn := beq_iff_eq.mp hxe
      rw [hxn] at hcon
      have hx2 := beq_iff_eq.mpr hcon.symm
      rw [hbe] at hx2
      cases hx2
  | typeIface n ms => exact ⟨h1, h2, h3⟩
  | funcMethod r m =>
    refine ⟨?_, ?_, ?_⟩
    · show (addMethod g.structs r (buildMethod m)).countP (fun s => s.name == "Car") = 1
      rw [countP_name_addMethod]
      exact h1
    · intro s hs hsc
      obtain ⟨x, hx, hn, hf⟩ := mem_addMethod hs
      rw [hf]
      exact h2 x hx (hn ▸ hsc)
    · show (addMethod g.structs r (buildMethod m)).any (fun s => s.name == "Engine") = true
      rw [any_name_addMethod]
      exact h3
  | otherDecl => exact ⟨h1, h2, h3⟩

theorem c10Inv_processDecls {ds : List RawDecl} {g : UMLGenerator}
    (hInv : c10Inv g) (hb : ds.all c10Benign = true) : c10Inv (processDecls g ds) := by
  induction ds generalizing g with
  | nil => exact hInv
  | cons d t ih =>
    rw [List.all_cons, Bool.and_eq_true] at hb
    exact ih (c10Inv_processDecl hInv hb.1) hb.2

theorem relations_processDecl (g : UMLGenerator) (d : RawDecl) :
    (processDecl g d).relations = g.relations := by
  cases d <;> rfl

theorem relations_processDecls (g : UMLGenerator) (ds : List RawDecl) :
    (processDecls g ds).relations = g.relations := by
  induction ds generalizing g with
  | nil => rfl
  | cons d t ih =>
    rw [processDecls, List.foldl_cons]
    show (processDecls (processDecl g d) t).relations = g.relations
    rw [ih, relations_processDecl]

theorem c10_step {g : UMLGenerator} {ds : List RawDecl}
    (hInv : c10Inv g) (hb : ds.all c10Benign = true) :
    (VariantA.parseFileOk g ds).relations.count c10rel = g.relations.count c10rel + 1 ∧
    c10Inv (VariantA.parseFileOk g ds) := by
  have hInv2 : c10Inv (processDecls g ds) := c10Inv_processDecls hInv hb
  constructor
  · show ((processDecls g ds).relations ++ VariantA.newRels (processDecls g ds)).count c10rel =
      g.relations.count c10rel + 1
    rw [List.count_append, relations_processDecls, count_newRels_inv hInv2]
  · exact hInv2

theorem c10_fold {rest : List (List RawDecl)} {g : UMLGenerator}
    (hInv : c10Inv g) (hb : rest.all (fun ds => ds.all c10Benign) = true) :
    ((rest.foldl VariantA.parseFileOk g).relations.count c10rel) =
      g.relations.count c10rel + rest.length := by
  induction rest generalizing g with
  | nil => rfl
  | cons ds t ih =>
    rw [List.all_cons, Bool.and_eq_true] at hb
    obtain ⟨hc, hInv2⟩ := c10_step hInv hb.1
    rw [List.foldl_cons, ih hInv2 hb.2, hc, List.length_cons]
    omega

/-- C10 counterexample: in a directory of two parseable units where the
second unit redeclares `Car` with no fields, the `Car -> Engine` aggregation
inferable after the first unit occurs only once in the final relation list,
not twice — re-inference after the second unit works on the overwritten
registry, so the claimed "appears again after each subsequent unit" fails. -/
theorem claimC10_cex :
    (VariantA.runPassOk [c10unit1, [RawDecl.typeStruct "Car" []]]).relations.count c10rel
      = 1 := by
  decide

/-- C10 (amended): relation inference runs once per parsed unit and appends
to the accumulated list without clearing it — `ParseGoFile`'s relations are
the incoming relations extended by the relations inferred from the updated
registry; consequently, provided no subsequent unit redeclares the structs
involved, the `Car -> Engine` aggregation of the first unit occurs exactly
`n` times in the final list of an `n`-unit directory. -/
theorem claimC10_relations_accumulate :
    (∀ (g : UMLGenerator) (ds : List RawDecl),
      (VariantA.parseFileOk g ds).relations =
        g.relations ++ VariantA.newRels (processDecls g ds)) ∧
    (∀ rest : List (List RawDecl),
      rest.all (fun ds => ds.all c10Benign) = true →
      (VariantA.runPassOk (c10unit1 :: rest)).relations.count c10rel = rest.length + 1) := by
  constructor
  · intro g ds
    show ((processDecls g ds).relations ++ VariantA.newRels (processDecls g ds)) =
      g.relations ++ VariantA.newRels (processDecls g ds)
    rw [relations_processDecls]
  · intro rest hb
    have hInv1 : c10Inv (VariantA.parseFileOk NewUMLGenerator c10unit1) := by
      refine ⟨by decide, ?_, by decide⟩
      decide
    have hc1 : (VariantA.parseFileOk NewUMLGenerator c10unit1).relations.count c10rel = 1 := by
      decide
    show ((rest.foldl VariantA.parseFileOk
      (VariantA.parseFileOk NewUMLGenerator c10unit1)).relations.count c10rel) = rest.length + 1
    rw [c10_fold hInv1 hb, hc1]
    omega

/-- C10 witness: a three-unit directory whose later units are benign — the
first unit's aggregation occurs exactly three times. -/
theorem claimC10_witness :
    (VariantA.runPassOk
      (c10unit1 :: [[RawDecl.typeStruct "X" []], [RawDecl.typeStruct "Y" []]])).relations.count
        c10rel = 3 :=
  claimC10_relations_accumulate.2
    [[RawDecl.typeStruct "X" []], [RawDecl.typeStruct "Y" []]] (by decide)
